import Mathlib

/-!
Verification of the workflow-sync-poc/common repository: a shallow embedding
of the Go source (`code/github.go` and the sync-workflows `main.go`) together
with theorems settling the specification claims.  Strings are embedded as
`List Char`; external effects (git subprocesses, the GitHub API, the
filesystem) are driven by explicit environment records, and the sequence of
external operations a function performs is recorded as an event trace.
-/

namespace WorkflowSync

/-- Shorthand: the character list of a string literal. -/
def str (s : String) : List Char := s.toList

/-- Embedding of Go `strings.Split(s, sep)` for a one-character separator:
splits at every occurrence of the separator, returning `[s]` when the
separator does not occur and `[""]` for the empty string. -/
def goSplit (sep : Char) : List Char → List (List Char)
  | [] => [[]]
  | c :: rest =>
    if c = sep then [] :: goSplit sep rest
    else
      match goSplit sep rest with
      | [] => [[c]]
      | piece :: pieces => (c :: piece) :: pieces

/-- The text strictly before the first occurrence of `sep`. -/
def beforeSep (sep : Char) (s : List Char) : List Char :=
  s.takeWhile fun c => c != sep

/-- The entire text strictly after the first occurrence of `sep`. -/
def afterSep (sep : Char) (s : List Char) : List Char :=
  (s.dropWhile fun c => c != sep).drop 1

/-- Embedding of `RepoOwnerName` (code/github.go): splits the identifier on
every `/` via `strings.Split` and returns the first two pieces; `none` models
the `panic` raised when fewer than two pieces result. -/
def RepoOwnerName (repo : List Char) : Option (List Char × List Char) :=
  match goSplit '/' repo with
  | a :: b :: _ => some (a, b)
  | _ => none

/-! ## Managed-file classification and the file transfer (code/github.go, `locallySync`) -/

/-- Does the list start with `".yml"` or `".yaml"`?  This is where a match of
the regular expression `\.y(a)?ml` can continue. -/
def extHere (s : List Char) : Bool :=
  (str ".yml").isPrefixOf s || (str ".yaml").isPrefixOf s

/-- Given the text following an occurrence of `"synced_"`, can the rest of the
regular expression `.+\.y(a)?ml` match here?  `.` in a Go regexp matches any
rune except a newline, and `+` demands at least one. -/
def syncedTail (s : List Char) : Bool :=
  (List.range (s.length + 1)).any fun k =>
    decide (1 ≤ k) && (s.take k).all (fun c => c != '\n') && extHere (s.drop k)

/-- Embedding of the selection predicate of `locallySync` (code/github.go):
`regexp.MustCompile("synced_.+\\.y(a)?ml").MatchString(name)`.  Go's
`MatchString` is an unanchored search, so this holds exactly when some
substring matches the pattern. -/
def isSyncedFile (s : List Char) : Bool :=
  (List.range (s.length + 1)).any fun i =>
    (str "synced_").isPrefixOf (s.drop i) && syncedTail (s.drop (i + 7))

/-- The managed-file shape as the specification words it: the whole filename
is exactly `synced_<name>.yml` or `synced_<name>.yaml` with non-empty
`<name>`, case-sensitive.  Stated separately from `isSyncedFile` so the two
classifications can be compared. -/
def specExactManagedForm (s : List Char) : Bool :=
  (str "synced_").isPrefixOf s &&
    ((str ".yml").isSuffixOf (s.drop 7) && decide (4 < (s.drop 7).length) ||
     (str ".yaml").isSuffixOf (s.drop 7) && decide (5 < (s.drop 7).length))

/-- A directory is a list of (filename, contents) pairs. -/
abbrev Dir : Type := List (List Char × List Char)

/-- Modelled from the spec: `DeleteSpecificFiles` (not under src/; called by
`locallySync`) deletes from the directory exactly the files whose name
satisfies the predicate. -/
def DeleteSpecificFiles (p : List Char → Bool) (dir : Dir) : Dir :=
  List.filter (fun f => !p f.1) dir

/-- Modelled from the spec: `CopySpecificFiles` (not under src/; called by
`locallySync`) copies into the target directory exactly the source files
whose name satisfies the predicate. -/
def CopySpecificFiles (p : List Char → Bool) (src target : Dir) : Dir :=
  target ++ List.filter (fun f => p f.1) src

/-- The delete-then-copy step of `locallySync`, applied to the two workflow
directories with the `isSyncedFile` predicate. -/
def locallySyncTransfer (src target : Dir) : Dir :=
  CopySpecificFiles isSyncedFile src (DeleteSpecificFiles isSyncedFile target)

/-! ## Pull-request creation check (code/github.go, `isOk` / `SyncRepository`) -/

/-- A GitHub API response, reduced to the field the code reads. -/
structure Response where
  statusCode : Nat
  deriving DecidableEq

/-- Decimal digit characters of a natural number, as produced by Go's
`fmt.Sprintf("%v", n)` for a non-negative integer. -/
def natDigits (n : Nat) : List Char := Nat.toDigits 10 n

/-- Embedding of `isOk` (code/github.go): formats the status code in decimal
and tests whether the first character differs from `'2'`.  Note that this
returns `true` precisely when the status is NOT in the 2xx range. -/
def isOk (statusCode : Nat) : Bool :=
  (natDigits statusCode).headD '0' != '2'

/-- Embedding of the pull-request step of `SyncRepository` (code/github.go):
`if err != nil || !isOk(response) { ... return error }`; `some` is the
could-not-create-pull-request error, `none` is success. -/
def prCreateResult (err : Option (List Char)) (response : Response)
    (head base : List Char) : Option (List Char) :=
  match err with
  | some e =>
    some (str "could not create pull request from '" ++ head ++ str "' to '" ++
      base ++ str "': " ++ e)
  | none =>
    if !isOk response.statusCode then
      some (str "could not create pull request from '" ++ head ++ str "' to '" ++
        base ++ str "': response status " ++ natDigits response.statusCode)
    else none

/-! ## Branch existence check (code/github.go, `BranchExists`) -/

/-- Embedding of `BranchExists` (code/github.go).  The underlying
`client.Repositories.GetBranch` call yields a branch-info value
(`branchInfoPresent` models `branchInfo != nil`), an optional response and an
optional error.  The code reads `response.StatusCode` first, so a `nil`
response is dereferenced unconditionally: that crash is modelled by `none`.
Otherwise `some (exists?, err?)` is the function's ordinary return. -/
def BranchExists (branchInfoPresent : Bool) (response : Option Response)
    (err : Option (List Char)) (owner name branch : List Char) :
    Option (Bool × Option (List Char)) :=
  match response with
  | none => none
  | some r =>
    if r.statusCode = 404 then some (false, none)
    else
      match err with
      | some e =>
        some (false, some (str "could not get branch info from '" ++ owner ++
          str "/" ++ name ++ str "@" ++ branch ++ str "': " ++ e))
      | none => some (branchInfoPresent, none)

/-! ## Event-trace embedding of the per-repository sync (code/github.go)

Each external operation the code performs — a `runCommand` subprocess, a
GitHub API call, or a filesystem operation — is recorded as one event, in
program order.  The outcomes of the external operations are supplied by a
`SyncEnv` record, so the embedded functions are ordinary total functions. -/

/-- One external operation.  `cmd name args` is `runCommand(name, args...)`. -/
inductive Ev where
  | cmd (name : List Char) (args : List (List Char))
  | apiGetRepo (owner name : List Char)
  | apiGetBranch (owner name branch : List Char)
  | apiCreatePR (owner name : List Char)
  | pathCheck (p : List Char)
  | deleteDir (p : List Char)
  | createDir (p : List Char)
  | deleteSyncedFiles (p : List Char)
  | copySyncedFiles (src tgt : List Char)
  deriving DecidableEq

/-- Results of every external call one per-repository sync attempt can make. -/
structure SyncEnv where
  hasToken : Bool
  repoInfoErr : Option (List Char)
  defaultBranch : List Char
  branchInfoPresent : Bool
  branchResponse : Option Response
  branchErr : Option (List Char)
  repoInfoErr2 : Option (List Char)
  checkoutDefaultOk : Bool
  branchDeleteLocalOk : Bool
  branchDeleteRemoteOk : Bool
  checkoutNewOk : Bool
  pushNewOk : Bool
  targetDirExists : Bool
  cloneOk : Bool
  setUrlOk : Bool
  workflowPathExists : Bool
  createDirOk : Bool
  deleteFilesOk : Bool
  copyFilesOk : Bool
  prErr : Option (List Char)
  prResponse : Response

/-- Embedding of `DeleteBranch` (code/github.go): look up the default branch,
check it out, delete the branch locally, then remotely.  Returns the trace and
the optional error. -/
def DeleteBranch (env : SyncEnv) (owner name branch : List Char) :
    List Ev × Option (List Char) :=
  let e1 := Ev.apiGetRepo owner name
  match env.repoInfoErr2 with
  | some e => ([e1], some (str "could not get default branch in '" ++ owner ++
      str "/" ++ name ++ str "': " ++ e))
  | none =>
    let db := env.defaultBranch
    let e2 := Ev.cmd (str "git") [str "checkout", db]
    if !env.checkoutDefaultOk then
      ([e1, e2], some (str "could not checkout default branch '" ++ owner ++
        str "/" ++ name ++ str "@" ++ db ++ str "'"))
    else
      let e3 := Ev.cmd (str "git") [str "branch", str "-D", branch]
      if !env.branchDeleteLocalOk then
        ([e1, e2, e3], some (str "could not delete branch locally '" ++ owner ++
          str "/" ++ name ++ str "@" ++ branch ++ str "'"))
      else
        let e4 := Ev.cmd (str "git") [str "push", str "origin", str "--delete", branch]
        if !env.branchDeleteRemoteOk then
          ([e1, e2, e3, e4], some (str "could not delete branch remotely '" ++ owner ++
            str "/" ++ name ++ str "@" ++ branch ++ str "'"))
        else ([e1, e2, e3, e4], none)

/-- Embedding of `CreateAndPushToNewBranch` (code/github.go).  `Except.error`
models the crash inherited from `BranchExists` on a nil response. -/
def CreateAndPushToNewBranch (env : SyncEnv) (owner name branch : List Char) :
    List Ev × Except Unit (Option (List Char)) :=
  let e1 := Ev.apiGetBranch owner name branch
  match BranchExists env.branchInfoPresent env.branchResponse env.branchErr
      owner name branch with
  | none => ([e1], .error ())
  | some (exB, errB) =>
    match errB with
    | some e => ([e1], .ok (some (str "could not see if old '" ++ branch ++
        str "' branch exists: " ++ e)))
    | none =>
      let del := if exB then DeleteBranch env owner name branch else ([], none)
      match del.2 with
      | some e => (e1 :: del.1, .ok (some (str "could not delete old '" ++ branch ++
          str "' branch: " ++ e)))
      | none =>
        let e2 := Ev.cmd (str "git") [str "checkout", str "-b", branch]
        if !env.checkoutNewOk then
          (e1 :: del.1 ++ [e2], .ok (some (str "could not checkout '" ++ owner ++
            str "/" ++ name ++ str "@" ++ branch ++ str "'")))
        else
          let e3 := Ev.cmd (str "git") [str "push", str "-u", str "origin", branch]
          if !env.pushNewOk then
            (e1 :: del.1 ++ [e2, e3], .ok (some (str "could not push to remote '" ++
              owner ++ str "/" ++ name ++ str "@" ++ branch ++ str "'")))
          else (e1 :: del.1 ++ [e2, e3], .ok none)

/-- Embedding of `CloneRepository` (code/github.go): delete the directory when
it already exists, then `git clone` and `git remote set-url origin`. -/
def CloneRepository (env : SyncEnv) (repo dir : List Char) :
    List Ev × Option (List Char) :=
  let pre := Ev.pathCheck dir ::
    (if env.targetDirExists then [Ev.deleteDir dir] else [])
  let url := str "https://github.com/" ++ repo ++ str ".git"
  let cloneMsg := str "could not clone git repository '" ++ repo ++
    str "' to '" ++ dir ++ str "'"
  let e1 := Ev.cmd (str "git") [str "clone", url, dir]
  if !env.cloneOk then (pre ++ [e1], some cloneMsg)
  else
    let e2 := Ev.cmd (str "git") [str "remote", str "set-url", str "origin", url]
    if !env.setUrlOk then (pre ++ [e1, e2], some cloneMsg)
    else (pre ++ [e1, e2], none)

/-- The contents (`some` = present) of the shared clone directory after
`CloneRepository` runs, as a function of its prior contents: the existing
directory is deleted first, and a successful clone recreates it holding
exactly the cloned repository's files. -/
def CloneRepositoryState (initial : Option Dir) (cloneOk : Bool)
    (cloneContents : Dir) : Option Dir :=
  let afterDelete := if initial.isSome then none else initial
  if cloneOk then some cloneContents else afterDelete

/-- The part of `locallySync` (code/github.go) after a successful clone:
ensure the target's workflow directory exists, delete the managed files
there, then copy the managed files over from the source. -/
def locallySyncAfterClone (env : SyncEnv) (targetRepo sourceRepoDir : List Char) :
    List Ev × Option (List Char) :=
  let twp := str "TargetRepo" ++ str "/.github/workflows"
  let swp := sourceRepoDir ++ str "/.github/workflows"
  let tr2 := [Ev.pathCheck twp]
  if !env.workflowPathExists && !env.createDirOk then
    (tr2 ++ [Ev.createDir twp],
      some (str "could not create workflow path for target repo '" ++
        targetRepo ++ str "'"))
  else
    let tr3 := if !env.workflowPathExists then tr2 ++ [Ev.createDir twp] else tr2
    let tr4 := tr3 ++ [Ev.deleteSyncedFiles twp]
    if !env.deleteFilesOk then
      (tr4, some (str "could not delete synced workflow files from target repo '" ++
        targetRepo ++ str "'"))
    else
      let tr5 := tr4 ++ [Ev.copySyncedFiles swp twp]
      if !env.copyFilesOk then
        (tr5, some (str "could not copy synced workflow files to target repo '" ++
          targetRepo ++ str "'"))
      else (tr5, none)

/-- Embedding of `locallySync` (code/github.go): clone the target into the
fixed `TargetRepo` directory, then run the directory-setup and file-transfer
steps; an error from the clone aborts the attempt before any transfer. -/
def locallySync (env : SyncEnv) (targetRepo sourceRepoDir : List Char) :
    List Ev × Option (List Char) :=
  let cl := CloneRepository env targetRepo (str "TargetRepo")
  match cl.2 with
  | some e => (cl.1, some e)
  | none =>
    let post := locallySyncAfterClone env targetRepo sourceRepoDir
    (cl.1 ++ post.1, post.2)

/-- Embedding of `SyncRepository` (code/github.go): parse the identifier
(crashing on a malformed one), build the client (crashing when no token is
present), look up the default branch, reconcile the feature branch, run the
local file sync, then attempt the pull-request creation.  `Except.error ()`
models a crash; `.ok (some e)` a returned error; `.ok none` success. -/
def SyncRepository (env : SyncEnv) (targetRepo sourceRepoDir : List Char) :
    List Ev × Except Unit (Option (List Char)) :=
  match RepoOwnerName targetRepo with
  | none => ([], .error ())
  | some (owner, name) =>
    if !env.hasToken then ([], .error ())
    else
      let e0 := Ev.apiGetRepo owner name
      match env.repoInfoErr with
      | some e => ([e0], .ok (some (str "could not get repository info from '" ++
          owner ++ str "/" ++ name ++ str "': " ++ e)))
      | none =>
        let db := env.defaultBranch
        let featureBranch := str "sync-workflows"
        let cp := CreateAndPushToNewBranch env owner name featureBranch
        match cp.2 with
        | .error u => (e0 :: cp.1, .error u)
        | .ok (some e) => (e0 :: cp.1, .ok (some (str "could not create and push to new branch '" ++
            featureBranch ++ str "': " ++ e)))
        | .ok none =>
          let ls := locallySync env targetRepo sourceRepoDir
          match ls.2 with
          | some e => (e0 :: cp.1 ++ ls.1, .ok (some (str "could not sync locally: " ++ e)))
          | none =>
            let e3 := Ev.apiCreatePR owner name
            (e0 :: cp.1 ++ ls.1 ++ [e3],
              .ok (prCreateResult env.prErr env.prResponse featureBranch db))

/-- An environment in which every external operation succeeds.  Note that the
pull-request response status must be OUTSIDE the 2xx range for the attempt to
succeed, because `isOk` inverts the check. -/
def envHappy : SyncEnv where
  hasToken := true
  repoInfoErr := none
  defaultBranch := str "main"
  branchInfoPresent := false
  branchResponse := some ⟨404⟩
  branchErr := none
  repoInfoErr2 := none
  checkoutDefaultOk := true
  branchDeleteLocalOk := true
  branchDeleteRemoteOk := true
  checkoutNewOk := true
  pushNewOk := true
  targetDirExists := false
  cloneOk := true
  setUrlOk := true
  workflowPathExists := true
  createDirOk := true
  deleteFilesOk := true
  copyFilesOk := true
  prErr := none
  prResponse := ⟨404⟩

/-- `envHappy`, except the branch-existence lookup fails at the transport
level: an error and no response at all, the situation in which
`BranchExists` dereferences the nil response. -/
def envCrash : SyncEnv :=
  { envHappy with branchResponse := none, branchErr := some (str "connection reset") }

/-- `envHappy`, except the `git clone` of the target repository fails, so the
attempt returns an error. -/
def envCloneFail : SyncEnv :=
  { envHappy with cloneOk := false }

/-! ## Outcomes, report rendering and the run decision (sync-workflows main.go) -/

/-- The fields of a created pull request that the report reads
(`*PullRequest.Title`, `*PullRequest.HTMLURL`, `*PullRequest.Number`). -/
structure PullRequestRef where
  title : List Char
  htmlUrl : List Char
  number : Nat
  deriving DecidableEq

/-- Embedding of `SyncedRepository` (sync-workflows main.go): one outcome per
target attempt.  `error = none` is success; `elapsedNs` is the wall-clock time
since the start of the run. -/
structure SyncedRepository where
  identifier : List Char
  error : Option (List Char)
  elapsedNs : Nat
  pullRequest : Option PullRequestRef
  deriving DecidableEq

/-- The line-break characters matched by the report's newline pattern
`\r\n|[\r\n\v\f\x{0085}\x{2028}\x{2029}]` (sync-workflows main.go). -/
def lineBreakChars : List Char :=
  ['\r', '\n', '\x0b', '\x0c', '\u0085', '\u2028', '\u2029']

/-- Embedding of `newlinePattern.ReplaceAllString(s, "; ")` (sync-workflows
main.go): a leftmost scan replacing each `"\r\n"` pair, and otherwise each
single line-break character, with `"; "`. -/
def flattenNewlines : List Char → List Char
  | [] => []
  | [c] => if c ∈ lineBreakChars then [';', ' '] else [c]
  | c :: d :: rest =>
    if c = '\r' ∧ d = '\n' then ';' :: ' ' :: flattenNewlines rest
    else if c ∈ lineBreakChars then ';' :: ' ' :: flattenNewlines (d :: rest)
    else c :: flattenNewlines (d :: rest)

/-- Embedding of `formatRepo` (sync-workflows main.go); `none` models the
`RepoOwnerName` panic on a malformed identifier. -/
def formatRepo (r : SyncedRepository) : Option (List Char) :=
  match RepoOwnerName r.identifier with
  | none => none
  | some (_, name) =>
    some (str "**[`" ++ name ++ str "`](https://github.com/" ++ r.identifier ++ str ")**")

/-- Embedding of `formatSuccess` (sync-workflows main.go). -/
def formatSuccess (r : SyncedRepository) : List Char :=
  if r.error.isSome then str "❌" else str "✔️"

/-- Embedding of `formatPullRequestStatus` (sync-workflows main.go). -/
def formatPullRequestStatus (r : SyncedRepository) : List Char :=
  let mergedImageUrl :=
    str "https://github.com/workflow-sync-poc/component-1/assets/48988185/43f86b74-a8eb-4df3-a2f3-ac8e714784b5"
  let openImageUrl :=
    str "https://github.com/workflow-sync-poc/component-1/assets/48988185/bc28bc57-f91c-4389-a103-d4524d4f6e39"
  if r.error.isSome then
    str "<img align=\"center\" src=\"" ++ openImageUrl ++ str "\"/>"
  else
    str "<img align=\"center\" src=\"" ++ mergedImageUrl ++ str "\"/>"

/-- Embedding of `formatPullRequest` (sync-workflows main.go). -/
def formatPullRequest (r : SyncedRepository) : List Char :=
  let inner :=
    match r.pullRequest with
    | some pr =>
      formatPullRequestStatus r ++ str " [**" ++ pr.title ++ str "**](" ++
        pr.htmlUrl ++ str ") #" ++ natDigits pr.number
    | none =>
      if r.error.isSome then str "Could not create." else str "No changes needed."
  str "<ul><li>" ++ inner ++ str "</li></ul>"

/-- One row of the report table, for a given time-formatting function
(`formatTime` renders a rounded `time.Duration`, whose text none of the
claims constrain). -/
def tableRow (fmtTime : SyncedRepository → List Char) (r : SyncedRepository) :
    Option (List Char) :=
  (formatRepo r).map fun fr =>
    str "| " ++ fr ++ str " | " ++ formatSuccess r ++ str " | " ++
      formatPullRequest r ++ str " | " ++ fmtTime r ++ str " |"

/-- One entry of the report's error list, for a failed outcome with message
`e`: `"- ❌ %s (%s)"` of the repository link and the flattened message. -/
def errorEntry (fr e : List Char) : List Char :=
  str "- ❌ " ++ fr ++ str " (" ++ flattenNewlines e ++ str ")"

/-- The body of the loop of `GetSyncedReposTableAndErrors` (sync-workflows
main.go): the table rows and the error-list entries, both in outcome order;
`none` models the `formatRepo` panic. -/
def buildTableAndErrors (fmtTime : SyncedRepository → List Char) :
    List SyncedRepository → Option (List (List Char) × List (List Char))
  | [] => some ([], [])
  | r :: rs =>
    match formatRepo r, buildTableAndErrors fmtTime rs with
    | some fr, some (rows, errs) =>
      let row := str "| " ++ fr ++ str " | " ++ formatSuccess r ++ str " | " ++
        formatPullRequest r ++ str " | " ++ fmtTime r ++ str " |"
      match r.error with
      | some e => some (row :: rows, errorEntry fr e :: errs)
      | none => some (row :: rows, errs)
    | _, _ => none

/-- `strings.Join(lines, "\r\n")`. -/
def joinCRLF : List (List Char) → List Char
  | [] => []
  | [x] => x
  | x :: xs => x ++ str "\r\n" ++ joinCRLF xs

/-- The table header lines (sync-workflows main.go). -/
def headerRow1 : List Char := str "| Repository | Success | Pull Request | T-Start |"

/-- The table separator line (sync-workflows main.go). -/
def headerRow2 : List Char := str "|:-|:-:|:-|-:|"

/-- Embedding of `GetSyncedReposTableAndErrors` (sync-workflows main.go): the
joined table, followed by the joined error list only when at least one entry
exists. -/
def GetSyncedReposTableAndErrors (fmtTime : SyncedRepository → List Char)
    (rs : List SyncedRepository) : Option (List Char) :=
  match buildTableAndErrors fmtTime rs with
  | none => none
  | some (rows, errs) =>
    let table := joinCRLF (headerRow1 :: headerRow2 :: rows)
    if 0 < errs.length then some (joinCRLF [table, joinCRLF errs])
    else some (joinCRLF [table])

/-- Embedding of `GetSyncedRepoCount` (sync-workflows main.go): the number of
outcomes with no error, and the total number of outcomes. -/
def GetSyncedRepoCount (rs : List SyncedRepository) : Nat × Nat :=
  (rs.foldl (fun acc r => if r.error.isNone then acc + 1 else acc) 0, rs.length)

/-- What the end of `main` (sync-workflows main.go) produces: the summary
lines written to the job summary, whether `updateLastSynced` moved the
`last-synced` tag, and whether the run terminated in failure (the final
`panic` when not every target synced). -/
structure RunResult where
  summaryLines : List (List Char)
  tagMoved : Bool
  exitFailure : Bool
  deriving DecidableEq

/-- The report heading: `"### 💨 Pushed `%s` Workflows to `%v/%v` Repos"`. -/
def headingLine (versionTag : List Char) (n m : Nat) : List Char :=
  str "### 💨 Pushed `" ++ versionTag ++ str "` Workflows to `" ++ natDigits n ++
    str "/" ++ natDigits m ++ str "` Repos"

/-- Embedding of the tail of `main` (sync-workflows main.go) after the sync
loop: compute the counts and the table, build the summary, move the tag on
total success (modelled from the spec: `AddOrMoveTag` is not under src/;
`tagMoveOk` says whether the move succeeds, and a failed move panics before
the summary is written) and otherwise keep the tag and end in failure.
`none` models a crash before the summary is written. -/
def mainFinish (tagMoveOk : Bool) (fmtTime : SyncedRepository → List Char)
    (versionTag : List Char) (rs : List SyncedRepository) : Option RunResult :=
  match GetSyncedReposTableAndErrors fmtTime rs with
  | none => none
  | some tae =>
    let n := (GetSyncedRepoCount rs).1
    let m := (GetSyncedRepoCount rs).2
    let heading := headingLine versionTag n m
    if n = m then
      if tagMoveOk then
        some ⟨[heading, tae, str "### 🏷️ Tag `last-synced` Updated"], true, false⟩
      else none
    else
      let missing := m - n
      let repoPost := if missing = 1 then [] else str "s"
      let needPost := if missing = 1 then str "s" else []
      some ⟨[heading, tae, str "### 🏷️ Tag `last-synced` Stays",
        str "*The next run will attempt to sync again, because **" ++
          natDigits missing ++ str "** repo" ++ repoPost ++ str " still need" ++
          needPost ++ str " workflows synced.*"], false, true⟩

/-! ## The sync loop (sync-workflows main.go, `main`) -/

/-- Embedding of the loop over the configured targets: each attempt yields an
error option, a pull-request option and an elapsed time, and exactly one
outcome per target is appended, in order.  `Except.error` models a crash
inside an attempt, which aborts the whole run and loses every outcome. -/
def runLoop
    (attempt : List Char → Except Unit (Option (List Char) × Option PullRequestRef × Nat)) :
    List (List Char) → Except Unit (List SyncedRepository)
  | [] => .ok []
  | t :: ts =>
    match attempt t with
    | .error u => .error u
    | .ok (e, pr, el) =>
      match runLoop attempt ts with
      | .error u => .error u
      | .ok rest => .ok ({ identifier := t, error := e, elapsedNs := el, pullRequest := pr } :: rest)

/-- The per-target attempt as `main` performs it, from an environment chosen
per target: run `SyncRepository` and package its result.  Modelled from the
spec for the parts not under src/: the caller's `SyncRepository` additionally
returns the created pull-request reference (`prRef` on success), and the
elapsed time is measured outside the sync itself (supplied as `elapsed`). -/
def attemptOf (envf : List Char → SyncEnv) (prRef : PullRequestRef)
    (elapsed : Nat) (sourceRepoDir : List Char) (t : List Char) :
    Except Unit (Option (List Char) × Option PullRequestRef × Nat) :=
  match (SyncRepository (envf t) t sourceRepoDir).2 with
  | .error u => .error u
  | .ok e => .ok (e, if e.isSome then none else some prRef, elapsed)

/-! ## Concrete material used by witnesses -/

/-- Is this event a `git commit` invocation? -/
def isCommitCmd : Ev → Bool
  | .cmd nm args => nm == str "git" && args.head? == some (str "commit")
  | _ => false

/-- Is this event one of the two file-transfer operations of `locallySync`? -/
def isTransferEv : Ev → Bool
  | .deleteSyncedFiles _ => true
  | .copySyncedFiles _ _ => true
  | _ => false

/-- A sample created-pull-request reference. -/
def prSample : PullRequestRef :=
  { title := str "(sync): update workflows"
    htmlUrl := str "https://github.com/octo/a/pull/12"
    number := 12 }

/-- A per-target environment in which the first sample target fails its clone
and every other target fully succeeds. -/
def envSelect (t : List Char) : SyncEnv :=
  if t = str "octo/a" then envCloneFail else envHappy

/-- A time formatter that renders every duration as `0s`. -/
def fmtTimeZero (_ : SyncedRepository) : List Char := str "0s"

/-- A sample failed outcome whose error message embeds a newline. -/
def outcomeFail : SyncedRepository :=
  { identifier := str "octo/a"
    error := some (str "boom\nagain")
    elapsedNs := 3
    pullRequest := none }

/-- A sample successful outcome. -/
def outcomeOk : SyncedRepository :=
  { identifier := str "octo/b"
    error := none
    elapsedNs := 5
    pullRequest := some prSample }

/-!
# Theorems

Helper lemmas first, then one theorem per claim (with its witness or
counterexample where required).
-/

theorem goSplit_head (sep : Char) (s : List Char) :
    ∃ rest, goSplit sep s = beforeSep sep s :: rest := by
  induction s with
  | nil => exact ⟨[], rfl⟩
  | cons c r ih =>
    by_cases hc : c = sep
    · refine ⟨goSplit sep r, ?_⟩
      simp [goSplit, beforeSep, hc]
    · obtain ⟨rest, hrest⟩ := ih
      refine ⟨rest, ?_⟩
      simp [goSplit, beforeSep, hc, hrest]

theorem goSplit_cons_of_mem (sep : Char) (s : List Char) (h : sep ∈ s) :
    goSplit sep s = beforeSep sep s :: goSplit sep (afterSep sep s) := by
  induction s with
  | nil => cases h
  | cons c r ih =>
    by_cases hc : c = sep
    · simp [goSplit, beforeSep, afterSep, hc]
    · have hr : sep ∈ r := by
        cases List.mem_cons.mp h with
        | inl h1 => exact absurd h1.symm hc
        | inr h2 => exact h2
      simp [goSplit, beforeSep, afterSep, hc, ih hr]

theorem goSplit_of_not_mem (sep : Char) (s : List Char) (h : sep ∉ s) :
    goSplit sep s = [s] := by
  induction s with
  | nil => rfl
  | cons c r ih =>
    have hc : c ≠ sep := fun hcs => h (hcs ▸ List.mem_cons_self c r)
    have hr : sep ∉ r := fun hrs => h (List.mem_cons_of_mem c hrs)
    simp [goSplit, hc, ih hr]

theorem RepoOwnerName_of_mem (s : List Char) (h : '/' ∈ s) :
    RepoOwnerName s = some (beforeSep '/' s, beforeSep '/' (afterSep '/' s)) := by
  obtain ⟨rest, hrest⟩ := goSplit_head '/' (afterSep '/' s)
  simp [RepoOwnerName, goSplit_cons_of_mem '/' s h, hrest]

theorem RepoOwnerName_of_not_mem (s : List Char) (h : '/' ∉ s) :
    RepoOwnerName s = none := by
  simp [RepoOwnerName, goSplit_of_not_mem '/' s h]

theorem flattenNewlines_no_breaks :
    ∀ (s : List Char), ∀ c ∈ flattenNewlines s, c ∉ lineBreakChars
  | [] => by simp [flattenNewlines]
  | [c0] => by
    intro c hc
    rw [show flattenNewlines [c0] =
      (if c0 ∈ lineBreakChars then [';', ' '] else [c0]) from rfl] at hc
    by_cases h : c0 ∈ lineBreakChars
    · rw [if_pos h] at hc
      rcases List.mem_cons.mp hc with h1 | h1
      · subst h1; decide
      · rcases List.mem_cons.mp h1 with h2 | h2
        · subst h2; decide
        · cases h2
    · rw [if_neg h] at hc
      rcases List.mem_cons.mp hc with h1 | h1
      · subst h1; exact h
      · cases h1
  | c0 :: d :: rest => by
    have ih1 := flattenNewlines_no_breaks rest
    have ih2 := flattenNewlines_no_breaks (d :: rest)
    intro c hc
    rw [show flattenNewlines (c0 :: d :: rest) =
      (if c0 = '\r' ∧ d = '\n' then ';' :: ' ' :: flattenNewlines rest
       else if c0 ∈ lineBreakChars then ';' :: ' ' :: flattenNewlines (d :: rest)
       else c0 :: flattenNewlines (d :: rest)) from rfl] at hc
    by_cases h : c0 = '\r' ∧ d = '\n'
    · rw [if_pos h] at hc
      rcases List.mem_cons.mp hc with h1 | h1
      · subst h1; decide
      · rcases List.mem_cons.mp h1 with h2 | h2
        · subst h2; decide
        · exact ih1 c h2
    · rw [if_neg h] at hc
      by_cases hb : c0 ∈ lineBreakChars
      · rw [if_pos hb] at hc
        rcases List.mem_cons.mp hc with h1 | h1
        · subst h1; decide
        · rcases List.mem_cons.mp h1 with h2 | h2
          · subst h2; decide
          · exact ih2 c h2
      · rw [if_neg hb] at hc
        rcases List.mem_cons.mp hc with h1 | h1
        · subst h1; exact hb
        · exact ih2 c h1

theorem foldl_success_count (rs : List SyncedRepository) (acc : Nat) :
    rs.foldl (fun a r => if r.error.isNone then a + 1 else a) acc =
      acc + rs.countP (fun r => r.error.isNone) := by
  induction rs generalizing acc with
  | nil => simp
  | cons r rs ih =>
    rw [List.foldl_cons, List.countP_cons, ih]
    cases h : r.error <;> simp [h]
    omega

theorem syncedRepoCount_fst (rs : List SyncedRepository) :
    (GetSyncedRepoCount rs).1 = rs.countP fun r => r.error.isNone := by
  simpa [GetSyncedRepoCount] using foldl_success_count rs 0

theorem count_add_failed (rs : List SyncedRepository) :
    rs.countP (fun r => r.error.isNone) +
      (rs.filter fun r => r.error.isSome).length = rs.length := by
  induction rs with
  | nil => rfl
  | cons r rs ih =>
    cases h : r.error <;>
      simp [List.countP_cons, List.filter_cons, h, List.length_cons] <;> omega

theorem formatRepo_eq (r : SyncedRepository) (ow nm : List Char)
    (h : RepoOwnerName r.identifier = some (ow, nm)) :
    formatRepo r =
      some (str "**[`" ++ nm ++ str "`](https://github.com/" ++
        r.identifier ++ str ")**") := by
  simp [formatRepo, h]

theorem mem_of_mem_goSplit (sep : Char) (s : List Char) :
    ∀ p ∈ goSplit sep s, ∀ c ∈ p, c ∈ s := by
  induction s with
  | nil =>
    intro p hp c hc
    simp [goSplit] at hp
    subst hp; cases hc
  | cons x r ih =>
    intro p hp c hc
    by_cases hx : x = sep
    · rw [show goSplit sep (x :: r) = [] :: goSplit sep r by simp [goSplit, hx]] at hp
      rcases List.mem_cons.mp hp with h1 | h1
      · subst h1; cases hc
      · exact List.mem_cons_of_mem _ (ih p h1 c hc)
    · obtain ⟨rest, hrest⟩ := goSplit_head sep r
      rw [show goSplit sep (x :: r) = (x :: beforeSep sep r) :: rest by
        simp [goSplit, hx, hrest]] at hp
      rcases List.mem_cons.mp hp with h1 | h1
      · subst h1
        rcases List.mem_cons.mp hc with h2 | h2
        · subst h2; exact List.mem_cons_self _ _
        · exact List.mem_cons_of_mem _
            (ih (beforeSep sep r) (hrest ▸ List.mem_cons_self _ _) c h2)
      · exact List.mem_cons_of_mem _
          (ih p (hrest ▸ List.mem_cons_of_mem _ h1) c hc)

theorem RepoOwnerName_name_mem (s ow nm : List Char)
    (h : RepoOwnerName s = some (ow, nm)) : ∀ c ∈ nm, c ∈ s := by
  unfold RepoOwnerName at h
  rcases hg : goSplit '/' s with _ | ⟨a, _ | ⟨b, rest⟩⟩ <;> rw [hg] at h
  · cases h
  · cases h
  · have hb : b = nm := by
      injection h with h1
      exact (congrArg Prod.snd h1)
    subst hb
    exact mem_of_mem_goSplit '/' s b
      (hg ▸ List.mem_cons_of_mem _ (List.mem_cons_self _ _))

theorem forall₂_imp_mem {α β : Type} {R S : α → β → Prop} :
    ∀ {l₁ : List α} {l₂ : List β}, List.Forall₂ R l₁ l₂ →
      (∀ a ∈ l₁, ∀ b, R a b → S a b) → List.Forall₂ S l₁ l₂ := by
  intro l₁ l₂ h
  induction h with
  | nil => intro; exact .nil
  | @cons a b l₁ l₂ hab _ ih =>
    intro hs
    exact .cons (hs a (List.mem_cons_self _ _) b hab)
      (ih fun x hx y hr => hs x (List.mem_cons_of_mem _ hx) y hr)

theorem buildTAE_spec (fmtTime : SyncedRepository → List Char)
    (rs : List SyncedRepository)
    (hwf : ∀ r ∈ rs, (RepoOwnerName r.identifier).isSome = true) :
    ∃ rows errs, buildTableAndErrors fmtTime rs = some (rows, errs) ∧
      rows.length = rs.length ∧
      List.Forall₂ (fun (r : SyncedRepository) row => tableRow fmtTime r = some row)
        rs rows ∧
      List.Forall₂ (fun (r : SyncedRepository) e => ∃ m ow nm,
          r.error = some m ∧ RepoOwnerName r.identifier = some (ow, nm) ∧
          e = errorEntry (str "**[`" ++ nm ++ str "`](https://github.com/" ++
            r.identifier ++ str ")**") m)
        (rs.filter fun r => r.error.isSome) errs := by
  induction rs with
  | nil => exact ⟨[], [], rfl, rfl, List.Forall₂.nil, List.Forall₂.nil⟩
  | cons r rs ih =>
    obtain ⟨⟨ow, nm⟩, hro⟩ :=
      Option.isSome_iff_exists.mp (hwf r (List.mem_cons_self r rs))
    obtain ⟨rows, errs, hb, hlen, hrows, hfa⟩ :=
      ih fun u hu => hwf u (List.mem_cons_of_mem r hu)
    have hfr := formatRepo_eq r ow nm hro
    cases he : r.error with
    | none =>
      refine ⟨(str "| " ++ (str "**[`" ++ nm ++ str "`](https://github.com/" ++
          r.identifier ++ str ")**") ++ str " | " ++ formatSuccess r ++ str " | " ++
          formatPullRequest r ++ str " | " ++ fmtTime r ++ str " |") :: rows,
        errs, ?_, by simp [hlen], ?_, ?_⟩
      · simp only [buildTableAndErrors, hfr, hb, he]
      · exact List.Forall₂.cons (by simp [tableRow, hfr]) hrows
      · rw [List.filter_cons_of_neg (by simp [he])]
        exact hfa
    | some m =>
      refine ⟨(str "| " ++ (str "**[`" ++ nm ++ str "`](https://github.com/" ++
          r.identifier ++ str ")**") ++ str " | " ++ formatSuccess r ++ str " | " ++
          formatPullRequest r ++ str " | " ++ fmtTime r ++ str " |") :: rows,
        errorEntry (str "**[`" ++ nm ++ str "`](https://github.com/" ++
          r.identifier ++ str ")**") m :: errs, ?_, by simp [hlen], ?_, ?_⟩
      · simp only [buildTableAndErrors, hfr, hb, he]
      · exact List.Forall₂.cons (by simp [tableRow, hfr]) hrows
      · rw [List.filter_cons_of_pos (by simp [he])]
        exact List.Forall₂.cons ⟨m, ow, nm, he, hro, rfl⟩ hfa

/-- C1: evaluating the pull-request creation check of `SyncRepository` at the
failing input.  With no API error and a 200 (2xx) response the code returns a
could-not-create-pull-request error, and with no API error and a 404 (non-2xx)
response it reports success: `isOk` answers `true` exactly when the status is
NOT in the 2xx range, so the guard `err != nil || !isOk(response)` fires on
2xx successes and passes on non-2xx responses. -/
theorem c1_pr_check_inverted :
    (prCreateResult none ⟨200⟩ (str "sync-workflows") (str "main")).isSome = true ∧
    prCreateResult none ⟨404⟩ (str "sync-workflows") (str "main") = none ∧
    isOk 200 = false ∧ isOk 404 = true := by
  refine ⟨rfl, rfl, rfl, rfl⟩

/-- C6 counterexample: the claim as stated is false at `"a/b/c"` — parsing
returns the piece between the first and second `/`, namely `"b"`, not the
entire text `"b/c"` after the first `/` — and at `"a/"`, whose empty name is
returned rather than rejected. -/
theorem c6_counterexample :
    RepoOwnerName (str "a/b/c") = some (str "a", str "b") ∧
    str "b" ≠ str "b/c" ∧
    RepoOwnerName (str "a/") = some (str "a", str "") := by
  refine ⟨rfl, by decide, rfl⟩

/-- C6 (amended): parsing splits on every `/`; for a string containing a `/`
it returns the text before the first `/` paired with the text between the
first and the second `/` (the entire remainder only when no second `/`
exists), and for a string with no `/` it fails with the malformed-identifier
panic.  Identifiers with an empty owner or empty name are not rejected. -/
theorem c6_repo_owner_name_split (s t : List Char) (hs : '/' ∈ s) (ht : '/' ∉ t) :
    RepoOwnerName s = some (beforeSep '/' s, beforeSep '/' (afterSep '/' s)) ∧
    RepoOwnerName t = none :=
  ⟨RepoOwnerName_of_mem s hs, RepoOwnerName_of_not_mem t ht⟩

/-- C6 witness: the amended statement at `"a/"` (note the accepted empty
name) and `"ab"`. -/
theorem c6_witness :
    RepoOwnerName (str "a/") =
      some (beforeSep '/' (str "a/"), beforeSep '/' (afterSep '/' (str "a/"))) ∧
    RepoOwnerName (str "ab") = none :=
  c6_repo_owner_name_split (str "a/") (str "ab") (by decide) (by decide)

/-- C10: `BranchExists` reads `response.StatusCode` before looking at the
error value.  First conjunct: a 404 response yields `(false, nil)` even when
the lookup also returned an error.  Second conjunct: with no response at all
the function dereferences nil and crashes (modelled as `none`), so its
error-returning branch is reachable only when a response accompanies the
error.  Third conjunct: with a non-404 response and an error, the wrapped
error is returned. -/
theorem c10_branch_exists_response_first (bi : Bool) (r : Response)
    (e eo : Option (List Char)) (o n b : List Char) :
    (r.statusCode = 404 → BranchExists bi (some r) e o n b = some (false, none)) ∧
    BranchExists bi none eo o n b = none ∧
    (∀ msg, r.statusCode ≠ 404 → BranchExists bi (some r) (some msg) o n b =
      some (false, some (str "could not get branch info from '" ++ o ++ str "/" ++
        n ++ str "@" ++ b ++ str "': " ++ msg))) := by
  refine ⟨fun h => by simp [BranchExists, h], rfl, fun msg h => by simp [BranchExists, h]⟩

/-- C10 witness: a 404 accompanied by an error still yields `(false, nil)`,
and an error with no response crashes. -/
theorem c10_witness :
    BranchExists true (some ⟨404⟩) (some (str "boom")) (str "o") (str "n") (str "b") =
      some (false, none) ∧
    BranchExists true none (some (str "boom")) (str "o") (str "n") (str "b") = none :=
  ⟨(c10_branch_exists_response_first true ⟨404⟩ (some (str "boom")) (some (str "boom"))
      (str "o") (str "n") (str "b")).1 rfl,
   (c10_branch_exists_response_first true ⟨404⟩ (some (str "boom")) (some (str "boom"))
      (str "o") (str "n") (str "b")).2.1⟩

/-- C4: evaluating `SyncRepository` on a fully successful attempt.  The
attempt succeeds, its trace contains no `git commit` invocation at all, and
the pull-request creation is the event immediately following the
file-transfer copy step — the transferred files are never committed or pushed
between the transfer and the pull-request creation (the only pushes happen
during branch reconciliation, before the transfer). -/
theorem c4_no_commit_between_transfer_and_pr :
    (SyncRepository envHappy (str "octo/repo") (str "SourceRepo")).2 = .ok none ∧
    ((SyncRepository envHappy (str "octo/repo") (str "SourceRepo")).1.all
      fun e => !isCommitCmd e) = true ∧
    (SyncRepository envHappy (str "octo/repo") (str "SourceRepo")).1.drop 9 =
      [Ev.copySyncedFiles (str "SourceRepo/.github/workflows")
        (str "TargetRepo/.github/workflows"),
       Ev.apiCreatePR (str "octo") (str "repo")] := by
  refine ⟨rfl, rfl, rfl⟩

/-- C5 counterexample: with two configured targets, a crash while syncing the
first one (the nil-response dereference of `BranchExists`, reached on a
transport-level failure) aborts the whole run: no outcome at all is recorded,
not one per listed target, and the second target is never processed. -/
theorem c5_counterexample :
    runLoop (attemptOf (fun _ => envCrash) prSample 0 (str "SourceRepo"))
      [str "octo/a", str "octo/b"] = .error () := by
  rfl

theorem runLoop_ok
    (attempt : List Char → Except Unit (Option (List Char) × Option PullRequestRef × Nat))
    (targets : List (List Char))
    (h : ∀ t ∈ targets, ∃ v, attempt t = .ok v) :
    ∃ os, runLoop attempt targets = .ok os ∧ os.length = targets.length ∧
      List.Forall₂ (fun t (o : SyncedRepository) => o.identifier = t ∧
        attempt t = .ok (o.error, o.pullRequest, o.elapsedNs)) targets os := by
  induction targets with
  | nil => exact ⟨[], rfl, rfl, List.Forall₂.nil⟩
  | cons t ts ih =>
    obtain ⟨v, hv⟩ := h t (List.mem_cons_self t ts)
    obtain ⟨os, hos, hlen, hf⟩ := ih fun u hu => h u (List.mem_cons_of_mem t hu)
    obtain ⟨e, pr, el⟩ := v
    refine ⟨{ identifier := t, error := e, elapsedNs := el, pullRequest := pr } :: os,
      ?_, ?_, List.Forall₂.cons ⟨rfl, hv⟩ hf⟩
    · simp [runLoop, hv, hos]
    · simp [hlen]

theorem attemptOf_ok_parse (envf : List Char → SyncEnv) (prRef : PullRequestRef)
    (elapsed : Nat) (srcDir t : List Char)
    (v : Option (List Char) × Option PullRequestRef × Nat)
    (h : attemptOf envf prRef elapsed srcDir t = .ok v) :
    (RepoOwnerName t).isSome = true := by
  rcases hro : RepoOwnerName t with _ | p
  · rw [attemptOf] at h
    simp [SyncRepository, hro] at h
  · rfl

theorem forall₂_mem_right {α β : Type} {R : α → β → Prop} :
    ∀ {l₁ : List α} {l₂ : List β}, List.Forall₂ R l₁ l₂ →
      ∀ b ∈ l₂, ∃ a ∈ l₁, R a b := by
  intro l₁ l₂ h
  induction h with
  | nil => intro b hb; cases hb
  | @cons a b l₁ l₂ hab _ ih =>
    intro x hx
    rcases List.mem_cons.mp hx with h1 | h1
    · exact ⟨a, List.mem_cons_self _ _, h1 ▸ hab⟩
    · obtain ⟨a', ha', hr⟩ := ih x h1
      exact ⟨a', List.mem_cons_of_mem _ ha', hr⟩

/-- C5 (amended): provided no per-target attempt crashes (a crash — nil
response in `BranchExists`, malformed identifier, missing token — aborts the
whole run), the run records exactly one outcome per listed target, in the
input order, each outcome carrying that target's identifier and fully
determined by that target's own attempt, so a failure returned by one
target's sync never prevents the processing and outcome recording of the
subsequent targets; consequently the report table has exactly one row per
target, in that order. -/
theorem c5_one_outcome_per_target (envf : List Char → SyncEnv)
    (prRef : PullRequestRef) (elapsed : Nat) (srcDir : List Char)
    (fmtTime : SyncedRepository → List Char) (targets : List (List Char))
    (h : ∀ t ∈ targets, ∃ v, attemptOf envf prRef elapsed srcDir t = .ok v) :
    ∃ os, runLoop (attemptOf envf prRef elapsed srcDir) targets = .ok os ∧
      os.length = targets.length ∧
      List.Forall₂ (fun t (o : SyncedRepository) => o.identifier = t ∧
        attemptOf envf prRef elapsed srcDir t = .ok (o.error, o.pullRequest, o.elapsedNs))
        targets os ∧
      ∃ rows errs, buildTableAndErrors fmtTime os = some (rows, errs) ∧
        rows.length = targets.length ∧
        List.Forall₂ (fun (o : SyncedRepository) row => tableRow fmtTime o = some row)
          os rows := by
  obtain ⟨os, hrun, hlen, hfa⟩ :=
    runLoop_ok (attemptOf envf prRef elapsed srcDir) targets h
  have hwf : ∀ o ∈ os, (RepoOwnerName o.identifier).isSome = true := by
    intro o ho
    obtain ⟨t, _, hid, hok⟩ := forall₂_mem_right hfa o ho
    rw [hid]
    exact attemptOf_ok_parse envf prRef elapsed srcDir t _ hok
  obtain ⟨rows, errs, hb, hrl, hrows, _⟩ := buildTAE_spec fmtTime os hwf
  exact ⟨os, hrun, hlen, hfa, rows, errs, hb, by rw [hrl, hlen], hrows⟩

/-- C5 witness: two targets of which the first fails its clone (a returned
error, not a crash): both outcomes are recorded, in order, and the report
table has one row per target. -/
theorem c5_witness :
    ∃ os, runLoop (attemptOf envSelect prSample 5 (str "SourceRepo"))
        [str "octo/a", str "octo/b"] = .ok os ∧
      os.length = [str "octo/a", str "octo/b"].length ∧
      List.Forall₂ (fun t (o : SyncedRepository) => o.identifier = t ∧
        attemptOf envSelect prSample 5 (str "SourceRepo") t =
          .ok (o.error, o.pullRequest, o.elapsedNs))
        [str "octo/a", str "octo/b"] os ∧
      ∃ rows errs, buildTableAndErrors fmtTimeZero os = some (rows, errs) ∧
        rows.length = [str "octo/a", str "octo/b"].length ∧
        List.Forall₂ (fun (o : SyncedRepository) row => tableRow fmtTimeZero o = some row)
          os rows := by
  refine c5_one_outcome_per_target envSelect prSample 5 (str "SourceRepo")
    fmtTimeZero _ ?_
  intro t ht
  rcases List.mem_cons.mp ht with h1 | h1
  · subst h1; exact ⟨_, rfl⟩
  · rcases List.mem_cons.mp h1 with h2 | h2
    · subst h2; exact ⟨_, rfl⟩
    · cases h2

/-- C8: for every outcome sequence whose identifiers parse (as in any run that
reaches reporting), the rendered report appends exactly one error-summary
entry per failed outcome, in order; each entry is `"- ❌ %s (%s)"` of the
repository link and the message with every embedded line break replaced by
`"; "` (the flattened message contains no line-break character); and when
there are zero failed outcomes the error-list section is entirely absent —
the report is exactly the joined table. -/
theorem c8_error_entries (fmtTime : SyncedRepository → List Char)
    (rs : List SyncedRepository)
    (hwf : ∀ r ∈ rs, (RepoOwnerName r.identifier).isSome = true) :
    ∃ rows errs, buildTableAndErrors fmtTime rs = some (rows, errs) ∧
      List.Forall₂ (fun (r : SyncedRepository) e => ∃ m fr, r.error = some m ∧
          formatRepo r = some fr ∧ e = errorEntry fr m ∧
          ∀ c ∈ flattenNewlines m, c ∉ lineBreakChars)
        (rs.filter fun r => r.error.isSome) errs ∧
      ((∀ r ∈ rs, r.error = none) →
        GetSyncedReposTableAndErrors fmtTime rs =
          some (joinCRLF (headerRow1 :: headerRow2 :: rows))) := by
  obtain ⟨rows, errs, hb, hlen, _, hfa⟩ := buildTAE_spec fmtTime rs hwf
  refine ⟨rows, errs, hb, ?_, ?_⟩
  · refine forall₂_imp_mem hfa ?_
    intro r _ e hre
    obtain ⟨m, ow, nm, he, hro, hee⟩ := hre
    exact ⟨m, _, he, formatRepo_eq r ow nm hro, hee, flattenNewlines_no_breaks m⟩
  · intro hall
    have hfilter : (rs.filter fun r => r.error.isSome) = [] := by
      rw [List.filter_eq_nil_iff]
      intro a ha
      simp [hall a ha]
    have herrs : errs = [] := by
      have hl := List.Forall₂.length_eq hfa
      rw [hfilter] at hl
      exact List.length_eq_zero.mp hl.symm
    subst herrs
    simp [GetSyncedReposTableAndErrors, hb, joinCRLF]

/-- C8 witness: one successful and one failed outcome; the failed outcome's
message embeds a newline. -/
theorem c8_witness :
    ∃ rows errs,
      buildTableAndErrors fmtTimeZero [outcomeOk, outcomeFail] = some (rows, errs) ∧
      List.Forall₂ (fun (r : SyncedRepository) e => ∃ m fr, r.error = some m ∧
          formatRepo r = some fr ∧ e = errorEntry fr m ∧
          ∀ c ∈ flattenNewlines m, c ∉ lineBreakChars)
        ([outcomeOk, outcomeFail].filter fun r => r.error.isSome) errs ∧
      ((∀ r ∈ [outcomeOk, outcomeFail], r.error = none) →
        GetSyncedReposTableAndErrors fmtTimeZero [outcomeOk, outcomeFail] =
          some (joinCRLF (headerRow1 :: headerRow2 :: rows))) := by
  refine c8_error_entries fmtTimeZero _ ?_
  intro r hr
  rcases List.mem_cons.mp hr with h | h
  · subst h; rfl
  · rcases List.mem_cons.mp h with h2 | h2
    · subst h2; rfl
    · cases h2

/-- C2: for every outcome list in which fewer outcomes succeeded than were
attempted (identifiers parseable and line-break free, per the data model),
the `last-synced` tag is not moved, the run ends in failure status, and the
report's error list has exactly total-minus-successes entries, one per failed
outcome in order, each a single line (no line-break characters) naming that
outcome's target identifier. -/
theorem c2_partial_failure_run (tagMoveOk : Bool)
    (fmtTime : SyncedRepository → List Char) (vt : List Char)
    (rs : List SyncedRepository)
    (hwf : ∀ r ∈ rs, (RepoOwnerName r.identifier).isSome = true)
    (hnb : ∀ r ∈ rs, ∀ c ∈ r.identifier, c ∉ lineBreakChars)
    (hlt : (GetSyncedRepoCount rs).1 < (GetSyncedRepoCount rs).2) :
    ∃ res, mainFinish tagMoveOk fmtTime vt rs = some res ∧
      res.tagMoved = false ∧ res.exitFailure = true ∧
      ∃ rows errs, buildTableAndErrors fmtTime rs = some (rows, errs) ∧
        errs.length = (GetSyncedRepoCount rs).2 - (GetSyncedRepoCount rs).1 ∧
        List.Forall₂ (fun (r : SyncedRepository) e =>
            (∃ u v, e = u ++ r.identifier ++ v) ∧ ∀ c ∈ e, c ∉ lineBreakChars)
          (rs.filter fun r => r.error.isSome) errs := by
  obtain ⟨rows, errs, hb, hlen, _, hfa⟩ := buildTAE_spec fmtTime rs hwf
  obtain ⟨tae, htae⟩ : ∃ tae, GetSyncedReposTableAndErrors fmtTime rs = some tae := by
    by_cases h0 : 0 < errs.length <;> simp [GetSyncedReposTableAndErrors, hb, h0]
  have hne : ¬((GetSyncedRepoCount rs).1 = (GetSyncedRepoCount rs).2) :=
    Nat.ne_of_lt hlt
  have h0 : mainFinish tagMoveOk fmtTime vt rs = mainFinish tagMoveOk fmtTime vt rs := rfl
  conv at h0 => lhs; simp only [mainFinish, htae]; rw [if_neg hne]
  refine ⟨_, h0.symm, rfl, rfl, rows, errs, hb, ?_, ?_⟩
  · have h1 := List.Forall₂.length_eq hfa
    have h2 := count_add_failed rs
    have h3 := syncedRepoCount_fst rs
    have h4 : (GetSyncedRepoCount rs).2 = rs.length := rfl
    omega
  · refine forall₂_imp_mem hfa ?_
    intro r hr e hre
    obtain ⟨m, ow, nm, he, hro, hee⟩ := hre
    have hrm : r ∈ rs := List.mem_of_mem_filter hr
    constructor
    · refine ⟨str "- ❌ " ++ (str "**[`" ++ nm ++ str "`](https://github.com/"),
        str ")**" ++ (str " (" ++ flattenNewlines m ++ str ")"), ?_⟩
      simp [hee, errorEntry, List.append_assoc]
    · intro c hc
      rw [hee] at hc
      simp only [errorEntry, List.append_assoc, List.mem_append] at hc
      rcases hc with h | h | h | h | h | h | h | h
      · exact (by decide : ∀ x ∈ str "- ❌ ", x ∉ lineBreakChars) c h
      · exact (by decide : ∀ x ∈ str "**[`", x ∉ lineBreakChars) c h
      · exact hnb r hrm c (RepoOwnerName_name_mem r.identifier ow nm hro c h)
      · exact (by decide : ∀ x ∈ str "`](https://github.com/", x ∉ lineBreakChars) c h
      · exact hnb r hrm c h
      · exact (by decide : ∀ x ∈ str ")**", x ∉ lineBreakChars) c h
      · exact (by decide : ∀ x ∈ str " (", x ∉ lineBreakChars) c h
      · rcases h with h2 | h2
        · exact flattenNewlines_no_breaks m c h2
        · exact (by decide : ∀ x ∈ str ")", x ∉ lineBreakChars) c h2

/-- C2 witness: two outcomes, one failed: the tag stays, the run fails, and
the single error entry names the failed target. -/
theorem c2_witness :
    ∃ res, mainFinish true fmtTimeZero (str "v1") [outcomeFail, outcomeOk] = some res ∧
      res.tagMoved = false ∧ res.exitFailure = true ∧
      ∃ rows errs,
        buildTableAndErrors fmtTimeZero [outcomeFail, outcomeOk] = some (rows, errs) ∧
        errs.length = (GetSyncedRepoCount [outcomeFail, outcomeOk]).2 -
          (GetSyncedRepoCount [outcomeFail, outcomeOk]).1 ∧
        List.Forall₂ (fun (r : SyncedRepository) e =>
            (∃ u v, e = u ++ r.identifier ++ v) ∧ ∀ c ∈ e, c ∉ lineBreakChars)
          ([outcomeFail, outcomeOk].filter fun r => r.error.isSome) errs := by
  refine c2_partial_failure_run true fmtTimeZero (str "v1") _ ?_ ?_ ?_
  · intro r hr
    rcases List.mem_cons.mp hr with h | h
    · subst h; rfl
    · rcases List.mem_cons.mp h with h2 | h2
      · subst h2; rfl
      · cases h2
  · intro r hr
    rcases List.mem_cons.mp hr with h | h
    · subst h; decide
    · rcases List.mem_cons.mp h with h2 | h2
      · subst h2; decide
      · cases h2
  · decide

/-- C3: for every outcome list in which every outcome succeeded — including
the vacuous empty list — the `last-synced` tag is moved, the run does not end
in failure, the report heading states the ratio M/M, and the final
sub-heading states that the tag was updated. -/
theorem c3_total_success_run (fmtTime : SyncedRepository → List Char)
    (vt : List Char) (rs : List SyncedRepository)
    (hwf : ∀ r ∈ rs, (RepoOwnerName r.identifier).isSome = true)
    (hall : ∀ r ∈ rs, r.error = none) :
    ∃ res, mainFinish true fmtTime vt rs = some res ∧ res.tagMoved = true ∧
      res.exitFailure = false ∧
      res.summaryLines.head? = some (headingLine vt rs.length rs.length) ∧
      res.summaryLines.getLast? = some (str "### 🏷️ Tag `last-synced` Updated") := by
  obtain ⟨rows, errs, hb, hlen, _, hfa⟩ := buildTAE_spec fmtTime rs hwf
  obtain ⟨tae, htae⟩ : ∃ tae, GetSyncedReposTableAndErrors fmtTime rs = some tae := by
    by_cases h0 : 0 < errs.length <;> simp [GetSyncedReposTableAndErrors, hb, h0]
  have hn : (GetSyncedRepoCount rs).1 = rs.length := by
    rw [syncedRepoCount_fst]
    refine List.countP_eq_length.mpr fun a ha => ?_
    simp [hall a ha]
  have heq : (GetSyncedRepoCount rs).1 = (GetSyncedRepoCount rs).2 := hn
  have h0 : mainFinish true fmtTime vt rs = mainFinish true fmtTime vt rs := rfl
  conv at h0 =>
    lhs
    simp only [mainFinish, htae]
    rw [if_pos heq, if_pos trivial]
  refine ⟨_, h0.symm, rfl, rfl, ?_, ?_⟩
  · simp only [List.head?_cons]
    rw [hn]
    rfl
  · rfl

/-- C3 witness: the empty outcome list (empty configuration): zero targets is
vacuous total success, the heading shows the ratio 0/0 and the tag moves. -/
theorem c3_witness :
    ∃ res, mainFinish true fmtTimeZero (str "v2.3.1") [] = some res ∧
      res.tagMoved = true ∧ res.exitFailure = false ∧
      res.summaryLines.head? =
        some (headingLine (str "v2.3.1") ([] : List SyncedRepository).length
          ([] : List SyncedRepository).length) ∧
      res.summaryLines.getLast? = some (str "### 🏷️ Tag `last-synced` Updated") :=
  c3_total_success_run fmtTimeZero (str "v2.3.1") []
    (fun r hr => absurd hr (List.not_mem_nil r))
    (fun r hr => absurd hr (List.not_mem_nil r))

theorem isSyncedFile_iff (s : List Char) :
    isSyncedFile s = true ↔
      ∃ pre mid ext post, s = pre ++ str "synced_" ++ mid ++ ext ++ post ∧
        mid ≠ [] ∧ (∀ c ∈ mid, c ≠ '\n') ∧
        (ext = str ".yml" ∨ ext = str ".yaml") := by
  constructor
  · intro h
    rw [isSyncedFile, List.any_eq_true] at h
    obtain ⟨i, _, hcond⟩ := h
    rw [Bool.and_eq_true] at hcond
    obtain ⟨hpre, htail⟩ := hcond
    obtain ⟨r, hr⟩ := List.isPrefixOf_iff_prefix.mp hpre
    have hdrop7 : s.drop (i + 7) = r := by
      rw [← List.drop_drop, ← hr,
        show (7 : Nat) = (str "synced_").length from rfl, List.drop_left]
    rw [hdrop7] at htail
    rw [syncedTail, List.any_eq_true] at htail
    obtain ⟨k, _, hkc⟩ := htail
    rw [Bool.and_eq_true, Bool.and_eq_true] at hkc
    obtain ⟨⟨hk1, hkall⟩, hext⟩ := hkc
    rw [extHere, Bool.or_eq_true] at hext
    have hk1' : 1 ≤ k := of_decide_eq_true hk1
    have hext' : ∃ ext post, r.drop k = ext ++ post ∧
        (ext = str ".yml" ∨ ext = str ".yaml") := by
      rcases hext with h1 | h1
      · obtain ⟨post, hpost⟩ := List.isPrefixOf_iff_prefix.mp h1
        exact ⟨str ".yml", post, hpost.symm, Or.inl rfl⟩
      · obtain ⟨post, hpost⟩ := List.isPrefixOf_iff_prefix.mp h1
        exact ⟨str ".yaml", post, hpost.symm, Or.inr rfl⟩
    obtain ⟨ext, post, hpost, hextd⟩ := hext'
    refine ⟨s.take i, r.take k, ext, post, ?_, ?_, ?_, hextd⟩
    · have hmain : s = s.take i ++ (str "synced_" ++ (r.take k ++ (ext ++ post))) := by
        rw [← hpost, List.take_append_drop, hr, List.take_append_drop]
      simpa [List.append_assoc] using hmain
    · intro hnil
      rcases List.take_eq_nil_iff.mp hnil with h0 | h0
      · omega
      · subst h0
        rcases hextd with he | he <;> subst he <;> simp [str] at hpost
    · intro c hc
      rw [List.all_eq_true] at hkall
      simpa using hkall c hc
  · rintro ⟨pre, mid, ext, post, hs, hmid, hnl, hextd⟩
    have hs' : s = pre ++ (str "synced_" ++ (mid ++ (ext ++ post))) := by
      simpa [List.append_assoc] using hs
    rw [isSyncedFile, List.any_eq_true]
    refine ⟨pre.length, ?_, ?_⟩
    · rw [List.mem_range]
      have hl := congrArg List.length hs'
      simp [List.length_append] at hl
      omega
    · rw [Bool.and_eq_true]
      have hdropPre : s.drop pre.length = str "synced_" ++ (mid ++ (ext ++ post)) := by
        rw [hs']; exact List.drop_left pre _
      constructor
      · exact List.isPrefixOf_iff_prefix.mpr ⟨mid ++ (ext ++ post), hdropPre.symm⟩
      · have hdrop7 : s.drop (pre.length + 7) = mid ++ (ext ++ post) := by
          rw [← List.drop_drop, hdropPre,
            show (7 : Nat) = (str "synced_").length from rfl, List.drop_left]
        rw [hdrop7, syncedTail, List.any_eq_true]
        refine ⟨mid.length, ?_, ?_⟩
        · rw [List.mem_range]
          simp [List.length_append]
          omega
        · rw [Bool.and_eq_true, Bool.and_eq_true]
          refine ⟨⟨?_, ?_⟩, ?_⟩
          · exact decide_eq_true (List.length_pos.mpr hmid)
          · rw [List.take_left, List.all_eq_true]
            intro c hc
            simpa using hnl c hc
          · rw [List.drop_left, extHere]
            rcases hextd with he | he <;> subst he
            · have hp : (str ".yml").isPrefixOf (str ".yml" ++ post) = true :=
                List.isPrefixOf_iff_prefix.mpr ⟨post, rfl⟩
              simp [hp]
            · have hp : (str ".yaml").isPrefixOf (str ".yaml" ++ post) = true :=
                List.isPrefixOf_iff_prefix.mpr ⟨post, rfl⟩
              simp [hp]

/-- C7 counterexample: `asynced_b.yml` is not of the exact form
`synced_<name>.yml`, yet the code's unanchored pattern classifies it as
managed — and the delete step of the transfer therefore deletes it from the
target directory, which the claim says can never happen. -/
theorem c7_counterexample :
    isSyncedFile (str "asynced_b.yml") = true ∧
    specExactManagedForm (str "asynced_b.yml") = false ∧
    DeleteSpecificFiles isSyncedFile [(str "asynced_b.yml", str "contents")] = [] := by
  refine ⟨by decide, by decide, by decide⟩

/-- C7 (amended): a filename is classified as managed iff it CONTAINS a
substring of the form `synced_<name>.yml` or `synced_<name>.yaml` with
non-empty, newline-free `<name>` (the Go pattern is unanchored and
case-sensitive); the delete and copy steps touch exactly the files so
classified: files not so classified survive the transfer untouched and are
never introduced by it, while the managed files of the result are exactly
those of the source. -/
theorem c7_managed_classification (s : List Char) (src target : Dir) :
    (isSyncedFile s = true ↔ ∃ pre mid ext post,
        s = pre ++ str "synced_" ++ mid ++ ext ++ post ∧ mid ≠ [] ∧
        (∀ c ∈ mid, c ≠ '\n') ∧ (ext = str ".yml" ∨ ext = str ".yaml")) ∧
    (∀ f ∈ target, isSyncedFile f.1 = false → f ∈ locallySyncTransfer src target) ∧
    (∀ f ∈ locallySyncTransfer src target, isSyncedFile f.1 = false → f ∈ target) ∧
    (∀ f ∈ locallySyncTransfer src target, isSyncedFile f.1 = true → f ∈ src) ∧
    (∀ f ∈ src, isSyncedFile f.1 = true → f ∈ locallySyncTransfer src target) := by
  refine ⟨isSyncedFile_iff s, ?_, ?_, ?_, ?_⟩
  · intro f hf hp
    exact List.mem_append_left _ (List.mem_filter.mpr ⟨hf, by simp [hp]⟩)
  · intro f hf hp
    rcases List.mem_append.mp hf with h | h
    · exact (List.mem_filter.mp h).1
    · exact absurd (List.mem_filter.mp h).2 (by simp [hp])
  · intro f hf hp
    rcases List.mem_append.mp hf with h | h
    · exact absurd (List.mem_filter.mp h).2 (by simp [hp])
    · exact (List.mem_filter.mp h).1
  · intro f hf hp
    exact List.mem_append_right _ (List.mem_filter.mpr ⟨hf, hp⟩)

/-- C7 witness: with an unmanaged `manual.yml` in the target and a managed
`synced_ci.yml` in the source, the unmanaged target file survives the
transfer. -/
theorem c7_witness :
    (str "manual.yml", str "B") ∈
      locallySyncTransfer [(str "synced_ci.yml", str "A")]
        [(str "manual.yml", str "B")] :=
  (c7_managed_classification (str "manual.yml")
      [(str "synced_ci.yml", str "A")] [(str "manual.yml", str "B")]).2.1
    (str "manual.yml", str "B") (List.mem_singleton.mpr rfl) (by decide)

theorem cloneRepository_ok_iff (env : SyncEnv) (repo dir : List Char) :
    (CloneRepository env repo dir).2 = none ↔
      env.cloneOk = true ∧ env.setUrlOk = true := by
  cases hc : env.cloneOk <;> cases hs : env.setUrlOk <;>
    simp [CloneRepository, hc, hs]

/-- C9: the shared `TargetRepo` clone directory is deleted whenever it
already exists and freshly recreated by the clone — the directory contents
after `CloneRepository` are exactly the cloned repository's files, whatever
was there before — and in `locallySync` the clone step's events (the path
check, the conditional directory delete, the `git clone`) all precede the
trace tail, no clone-step event is a file-transfer operation, and a
file-transfer event can appear in the tail only when clone and remote set-up
both succeeded. -/
theorem c9_clean_clone_before_transfer (env : SyncEnv) (repo srcDir : List Char) :
    (∀ initial c, CloneRepositoryState initial env.cloneOk c =
        if env.cloneOk then some c else none) ∧
    Ev.pathCheck (str "TargetRepo") ∈ (CloneRepository env repo (str "TargetRepo")).1 ∧
    (env.targetDirExists = true →
      Ev.deleteDir (str "TargetRepo") ∈ (CloneRepository env repo (str "TargetRepo")).1) ∧
    (∀ e ∈ (CloneRepository env repo (str "TargetRepo")).1, isTransferEv e = false) ∧
    ∃ rest, (locallySync env repo srcDir).1 =
        (CloneRepository env repo (str "TargetRepo")).1 ++ rest ∧
      ((∃ e ∈ rest, isTransferEv e = true) →
        env.cloneOk = true ∧ env.setUrlOk = true) := by
  refine ⟨?_, ?_, ?_, ?_, ?_⟩
  · intro initial c
    cases initial <;> cases hc : env.cloneOk <;> simp [CloneRepositoryState, hc]
  · cases htd : env.targetDirExists <;> cases hc : env.cloneOk <;>
      cases hs : env.setUrlOk <;> simp [CloneRepository, htd, hc, hs]
  · intro htd
    cases hc : env.cloneOk <;> cases hs : env.setUrlOk <;>
      simp [CloneRepository, htd, hc, hs]
  · intro e he
    have hall : ((CloneRepository env repo (str "TargetRepo")).1.all
        fun x => !isTransferEv x) = true := by
      cases htd : env.targetDirExists <;> cases hc : env.cloneOk <;>
        cases hs : env.setUrlOk <;> simp [CloneRepository, htd, hc, hs, isTransferEv]
    have := List.all_eq_true.mp hall e he
    simpa using this
  · rcases hres : (CloneRepository env repo (str "TargetRepo")).2 with _ | e
    · refine ⟨(locallySyncAfterClone env repo srcDir).1, ?_, ?_⟩
      · simp [locallySync, hres]
      · intro _
        exact (cloneRepository_ok_iff env repo (str "TargetRepo")).mp hres
    · refine ⟨[], ?_, ?_⟩
      · simp [locallySync, hres]
      · intro h
        rcases h with ⟨x, hx, _⟩
        cases hx

/-- C9 witness: with the clone directory already present from a previous
target, the clone step's trace contains the directory deletion, and the fresh
clone's contents are exactly the cloned files. -/
theorem c9_witness :
    Ev.deleteDir (str "TargetRepo") ∈
      (CloneRepository { envHappy with targetDirExists := true }
        (str "octo/repo") (str "TargetRepo")).1 ∧
    CloneRepositoryState (some [(str "stale.yml", str "old")])
        { envHappy with targetDirExists := true }.cloneOk
        [(str "synced_ci.yml", str "new")] =
      some [(str "synced_ci.yml", str "new")] :=
  ⟨(c9_clean_clone_before_transfer { envHappy with targetDirExists := true }
      (str "octo/repo") (str "SourceRepo")).2.2.1 rfl,
   (c9_clean_clone_before_transfer { envHappy with targetDirExists := true }
      (str "octo/repo") (str "SourceRepo")).1
     (some [(str "stale.yml", str "old")]) [(str "synced_ci.yml", str "new")]⟩

end WorkflowSync
